import Mathlib

/-!
Shallow embedding of the Mask Annotation Store and Compositor backend
(`backend/app.py`): the metadata index (`load_meta`, `save_meta`,
`update_metadata`), mask persistence (`save`, `delete`, `list_masks`), the
review journal (`append_log`, `log_action`, `load_processed`) and the
compositing pipeline (`distinct_colors`, `make_single_mask_thumbnail`,
`make_combined_thumbnail`).

Modelling conventions:

* The per-(image, query) mask directory is a `MaskDir`: an association list
  of file names to `.npy` contents together with the state of
  `mask_metadata.json`.
* Randomness (`random_id`) and the clock (`datetime.utcnow`) are external
  inputs: the drawn identifier and the timestamp are passed as arguments.
* A journal file is a list of raw lines classified by how `json.loads`
  treats them: parse failure (`malformed`), valid JSON that is not an
  object (`nonobject`, on which `obj.get` raises `AttributeError`), or an
  object (`parsed`), whose relevant keys are modelled as JSON values
  (`obj.get` yields Python `None`, i.e. `jnull`, for a missing key).
* Pixels are RGBA quadruples of rationals on the 0..255 scale; PIL's
  `Image.alpha_composite` is modelled as the standard straight-alpha
  "over" operator in exact rational arithmetic (PIL's fixed-point
  rounding approximates it within quantization).  Bilinear resizing and
  PNG/base64 encoding are external presentation steps: images are
  modelled at the mask resolution, and an `Option Img` result stands for
  the base64 string of the composite (`none` for the empty-string
  sentinel returned when no mask loads, which no successful base64
  encoding can produce).
* `colorsys.hsv_to_rgb` is transcribed over the rationals; the Python
  `int()` truncation of the nonnegative values arising here is
  `Int.toNat` of the floor.
-/

namespace Sam2

/-- A JSON value as produced by `dict.get` on a parsed log line: `jnull` is
Python `None` (missing key), `jother` any value that is neither an int nor
a string (floats, lists, nested objects). -/
inductive JVal where
  | jnull
  | jint (n : Int)
  | jstr (s : String)
  | jother
deriving DecidableEq, Repr

/-- One parsed journal line (a JSON object), restricted to the keys the
backend reads or writes; `obj.get` on a missing key yields `jnull`. -/
structure LogEntry where
  chunk_id : JVal
  index : JVal
  image_name : JVal
  query_id : JVal
  action : JVal
  ts : JVal
deriving DecidableEq, Repr

/-- A raw line of a `chunk_*.jsonl` file, classified by `json.loads`:
`malformed` fails to parse (and is skipped by the replay), `nonobject`
parses to a non-object value (on which `obj.get` raises), `parsed` parses
to an object. -/
inductive RawLine where
  | malformed
  | nonobject
  | parsed (e : LogEntry)
deriving DecidableEq, Repr

/-- The replay projection: a Python dict modelled as an association list in
insertion order (update in place, insert at the end). -/
abbrev StatusDict := List (Int × String)

/-- Python `results[idx] = act` on a dict. -/
def dict_set (d : StatusDict) (k : Int) (v : String) : StatusDict :=
  match d with
  | [] => [(k, v)]
  | (k1, v1) :: t => if k1 = k then (k, v) :: t else (k1, v1) :: dict_set t k v

/-- Dict lookup, `results.get(idx)`. -/
def dict_get (d : StatusDict) (k : Int) : Option String :=
  match d with
  | [] => none
  | (k1, v1) :: t => if k1 = k then some v1 else dict_get t k

/-- One iteration of the replay loop of `load_processed` (app.py 215-225):
a line failing `json.loads` is skipped; a parsed non-object raises
`AttributeError` at `obj.get`, modelled as `Except.error`; otherwise events
whose `chunk_id` differs from the queried one are filtered out, and an
entry is recorded only for an integer `index` and an action in
`{done, skip}`, overwriting any prior value for that index. -/
def replay_step (c : Int) (d : StatusDict) : RawLine → Except Unit StatusDict
  | .malformed => .ok d
  | .nonobject => .error ()
  | .parsed e =>
    if e.chunk_id ≠ .jint c then .ok d
    else
      match e.index, e.action with
      | .jint idx, .jstr act =>
        if act = "done" ∨ act = "skip" then .ok (dict_set d idx act) else .ok d
      | _, _ => .ok d

/-- The `for line in f` loop of `load_processed`: an uncaught exception in
an iteration aborts the whole replay. -/
def replay_lines (c : Int) (d : StatusDict) : List RawLine → Except Unit StatusDict
  | [] => .ok d
  | l :: rest =>
    match replay_step c d l with
    | .ok d1 => replay_lines c d1 rest
    | .error u => .error u

/-- app.py `load_processed`: a missing log file yields the empty
projection, otherwise the file's lines are replayed in order starting from
an empty dict. -/
def load_processed (c : Int) (file : Option (List RawLine)) : Except Unit StatusDict :=
  match file with
  | none => .ok []
  | some lines => replay_lines c [] lines

/-- Body of a `/log` request (app.py `LogRequest`). -/
structure LogRequest where
  chunk_id : Int
  index : Int
  image_name : String
  query_id : Int
  action : String
deriving DecidableEq, Repr

/-- The JSON object `log_action` passes to `append_log`, extended with the
timestamp that `append_log` captures (the clock is an external input). -/
def entry_of_request (req : LogRequest) (ts : String) : LogEntry :=
  { chunk_id := .jint req.chunk_id
    index := .jint req.index
    image_name := .jstr req.image_name
    query_id := .jint req.query_id
    action := .jstr req.action
    ts := .jstr ts }

/-- app.py `append_log`: opening in append mode creates the file when it is
missing, and exactly one serialized line is appended. -/
def append_log (file : Option (List RawLine)) (e : LogEntry) : Option (List RawLine) :=
  some (file.getD [] ++ [.parsed e])

/-- Response of the `/log` endpoint. -/
inductive LogResp where
  | okResp
  | errResp (msg : String)
deriving DecidableEq, Repr

/-- app.py `log_action`: an action outside `{done, skip}` is rejected
before any write; otherwise the single event is appended. -/
def log_action (req : LogRequest) (ts : String) (file : Option (List RawLine)) :
    Option (List RawLine) × LogResp :=
  if ¬ (req.action = "done" ∨ req.action = "skip") then
    (file, .errResp "action must be done or skip")
  else
    (append_log file (entry_of_request req ts), .okResp)

/-- State of `mask_metadata.json`: missing, unparsable, or a parsed list of
file-name strings. -/
inductive MetaFile where
  | absent
  | corrupt
  | good (names : List String)
deriving DecidableEq, Repr

/-- app.py `load_meta`: a missing file and a `json.load` failure both yield
the empty list. -/
def load_meta : MetaFile → List String
  | .absent => []
  | .corrupt => []
  | .good names => names

/-- app.py `save_meta`: `json.dump` of the list (a full-file overwrite). -/
def save_meta (names : List String) : MetaFile := .good names

/-- app.py `update_metadata`: append the name unless it is already present,
then rewrite the metadata file. -/
def update_metadata (meta : MetaFile) (mask_name : String) : MetaFile :=
  let names := load_meta meta
  save_meta (if mask_name ∈ names then names else names ++ [mask_name])

/-- A decoded mask: a grid of 8-bit gray values (`np.array` of a mode "L"
image). -/
abbrev Mask := List (List ℕ)

/-- Content of a stored `.npy` file: loadable, or corrupt (`np.load`
raises). -/
inductive NpyContent where
  | goodNpy (m : Mask)
  | corruptNpy
deriving DecidableEq, Repr

/-- A per-(image, query) mask directory: the `.npy` files present (name to
content, names unique on a file system) and the metadata file. -/
structure MaskDir where
  files : List (String × NpyContent)
  meta : MetaFile
deriving DecidableEq, Repr

/-- Reading a directory entry by name (`os.path.exists` is `isSome`). -/
def fs_lookup : List (String × NpyContent) → String → Option NpyContent
  | [], _ => none
  | (n, c) :: t, x => if n = x then some c else fs_lookup t x

/-- `np.save`: create or overwrite the named file. -/
def fs_write : List (String × NpyContent) → String → NpyContent → List (String × NpyContent)
  | [], x, c => [(x, c)]
  | (n, c1) :: t, x, c => if n = x then (x, c) :: t else (n, c1) :: fs_write t x c

/-- `os.remove`. -/
def fs_remove (fs : List (String × NpyContent)) (x : String) : List (String × NpyContent) :=
  fs.filter (fun p => p.1 ≠ x)

/-- `np.load` wrapped in try/except: `none` when the file is missing or its
content fails to load. -/
def np_load (d : MaskDir) (n : String) : Option Mask :=
  match fs_lookup d.files n with
  | some (.goodNpy m) => some m
  | _ => none

/-- First durable step of `/save` (app.py 249-251): write the decoded mask
array under the drawn name.  The random draw is an external input
(`random_id(10)`). -/
def save_write_file (d : MaskDir) (mask_name : String) (m : Mask) : MaskDir :=
  { d with files := fs_write d.files mask_name (.goodNpy m) }

/-- app.py `/save`: write the array file, then append the name to the
metadata index, and return the name.  The name is the single random draw
with ".npy" appended; no membership check or regeneration is performed. -/
def save (d : MaskDir) (rand : String) (m : Mask) : MaskDir × String :=
  let mask_name := rand ++ ".npy"
  let d1 := save_write_file d mask_name m
  (⟨d1.files, update_metadata d1.meta mask_name⟩, mask_name)

/-- A sequence of `/save` requests (draw, mask) folded over a directory. -/
def save_all (d : MaskDir) (ops : List (String × Mask)) : MaskDir :=
  ops.foldl (fun s p => (save s p.1 p.2).1) d

/-- app.py `/delete`: remove the backing file if it exists (a missing file
is not an error), filter the name out of the index, rewrite the index;
always answers "deleted". -/
def delete (d : MaskDir) (mask_name : String) : MaskDir × String :=
  let files1 :=
    if (fs_lookup d.files mask_name).isSome then fs_remove d.files mask_name else d.files
  let names := (load_meta d.meta).filter (fun n => n ≠ mask_name)
  (⟨files1, save_meta names⟩, "deleted")

/-- Invariant: every id in the metadata index has a backing file. -/
def index_backed (d : MaskDir) : Prop :=
  ∀ n ∈ load_meta d.meta, (fs_lookup d.files n).isSome = true

/-- An RGBA pixel; channels are rationals on the 0..255 scale. -/
structure Pixel where
  r : ℚ
  g : ℚ
  b : ℚ
  a : ℚ
deriving DecidableEq, Repr

/-- PIL `Image.alpha_composite` per pixel (`src` pasted over `dst`):
standard straight-alpha "over" in exact arithmetic on the 0..255 scale. -/
def over_pixel (dst src : Pixel) : Pixel :=
  let oa := src.a + dst.a * (255 - src.a) / 255
  if oa = 0 then ⟨0, 0, 0, 0⟩
  else
    ⟨(src.r * src.a + dst.r * dst.a * (255 - src.a) / 255) / oa,
     (src.g * src.a + dst.g * dst.a * (255 - src.a) / 255) / oa,
     (src.b * src.a + dst.b * dst.a * (255 - src.a) / 255) / oa,
     oa⟩

/-- An RGBA image as a pixel grid. -/
abbrev Img := List (List Pixel)

/-- PIL `Image.alpha_composite(im1, im2)`: `im2` over `im1`, pixelwise (the
two images have equal dimensions wherever the backend calls this). -/
def alpha_composite (im1 im2 : Img) : Img :=
  List.zipWith (fun r1 r2 => List.zipWith over_pixel r1 r2) im1 im2

/-- The solid-color layer with per-pixel alpha from the mask (app.py:
`color_img` with `putalpha` of `(mask_np > 0) * opacity`). -/
def color_layer (c : ℕ × ℕ × ℕ) (opacity : ℕ) (m : Mask) : Img :=
  m.map (fun row => row.map (fun v =>
    ⟨(c.1 : ℚ), (c.2.1 : ℚ), (c.2.2 : ℚ), if 0 < v then (opacity : ℚ) else 0⟩))

/-- A fully transparent image of the same dimensions, as built by
`Image.new("RGBA", (w, h), (0, 0, 0, 0))`. -/
def transparent_like (im : Img) : Img :=
  im.map (fun row => row.map (fun _ => (⟨0, 0, 0, 0⟩ : Pixel)))

/-- Python `int()` applied to a rational: truncation toward zero.  The
backend only applies it to nonnegative values, where truncation agrees
with the floor. -/
def int_trunc (q : ℚ) : ℤ := ⌊q⌋

/-- `colorsys.hsv_to_rgb`, transcribed over the rationals (`int(h * 6.0)`
is `int_trunc`); the source's `if i == 0: ... if i == 5: ...` chain on
`i % 6` is kept as a conditional chain. -/
def hsv_to_rgb (h s v : ℚ) : ℚ × ℚ × ℚ :=
  if s = 0 then (v, v, v)
  else
    let i0 : ℤ := int_trunc (h * 6)
    let f : ℚ := h * 6 - (i0 : ℚ)
    let p := v * (1 - s)
    let q := v * (1 - s * f)
    let t := v * (1 - s * (1 - f))
    let i : ℤ := i0 % 6
    if i = 0 then (v, t, p)
    else if i = 1 then (q, v, p)
    else if i = 2 then (p, v, t)
    else if i = 3 then (p, q, v)
    else if i = 4 then (t, p, v)
    else (v, p, q)

/-- `tuple(int(c * 255) for c in colorsys.hsv_to_rgb(...))`. -/
def rgb255 (c : ℚ × ℚ × ℚ) : ℕ × ℕ × ℕ :=
  ((int_trunc (c.1 * 255)).toNat, (int_trunc (c.2.1 * 255)).toNat,
   (int_trunc (c.2.2 * 255)).toNat)

/-- app.py `distinct_colors`: `n` evenly spaced hues at saturation 0.8 and
value 1.0, each converted to an RGB triple; the empty list for `n = 0`. -/
def distinct_colors (n : ℕ) : List (ℕ × ℕ × ℕ) :=
  if n = 0 then []
  else (List.range n).map (fun i : ℕ => rgb255 (hsv_to_rgb ((i : ℚ) / (n : ℚ)) (4 / 5) 1))

/-- Core of `make_combined_thumbnail` (app.py 169-185) on the list of masks
that loaded: the empty list yields the empty-string sentinel (`none`);
otherwise each mask's colored layer (opacity 110) is composited over the
accumulating overlay in list order, and finally the overlay over the base
image. -/
def compose_masks (base : Img) (masks : List Mask) : Option Img :=
  if masks.isEmpty then none
  else
    let colors := distinct_colors masks.length
    let overlay := (masks.zip colors).foldl
      (fun ov mc => alpha_composite ov (color_layer mc.2 110 mc.1))
      (transparent_like base)
    some (alpha_composite base overlay)

/-- app.py `make_combined_thumbnail`: try-load each path (failures are
skipped silently), then compose.  The base image is given at the mask
resolution; the PIL bilinear resize and the PNG/base64 encoding are
external presentation steps. -/
def make_combined_thumbnail (d : MaskDir) (base : Img) (mask_paths : List String) : Option Img :=
  compose_masks base (mask_paths.filterMap (np_load d))

/-- app.py `make_single_mask_thumbnail`: a red overlay at opacity 100. -/
def make_single_mask_thumbnail (base : Img) (m : Mask) : Img :=
  alpha_composite base (color_layer (255, 0, 0) 100 m)

/-- One iteration of the listing loop of `/masks` (app.py 272-282): a name
whose file does not exist is skipped; an existing path is recorded; on a
successful `np.load` the per-mask item is added. -/
def list_step (d : MaskDir) (base : Img) (acc : List (String × Img) × List String)
    (n : String) : List (String × Img) × List String :=
  match fs_lookup d.files n with
  | none => acc
  | some .corruptNpy => (acc.1, acc.2 ++ [n])
  | some (.goodNpy m) => (acc.1 ++ [(n, make_single_mask_thumbnail base m)], acc.2 ++ [n])

/-- app.py `/masks`: iterate the index, building per-mask thumbnails and
the list of existing paths, then the combined thumbnail (`none` models the
empty string returned when no path survives or no mask loads). -/
def list_masks (d : MaskDir) (base : Img) : Option Img × List (String × Img) :=
  let r := (load_meta d.meta).foldl (list_step d base) ([], [])
  (if r.2.isEmpty then none else make_combined_thumbnail d base r.2, r.1)

/-- Spec-side: the valid event a raw line contributes for chunk `c` (chunk
id matches, integer index, action in `{done, skip}`). -/
def valid_event_of (c : Int) : RawLine → Option (Int × String)
  | .parsed e =>
    if e.chunk_id = .jint c then
      match e.index, e.action with
      | .jint idx, .jstr act =>
        if act = "done" ∨ act = "skip" then some (idx, act) else none
      | _, _ => none
    else none
  | _ => none

/-- Spec-side (last-write-wins): the action of the latest valid event for
index `i`, in append order. -/
def last_valid_action (c : Int) (lines : List RawLine) (i : Int) : Option String :=
  ((lines.reverse.filterMap (valid_event_of c)).find? (fun p => p.1 = i)).map (fun p => p.2)

/-- Left-biased choice on options (`Option.orElse` written out, to keep the
replay lemmas self-contained). -/
def opor {α : Type} (x y : Option α) : Option α :=
  match x with
  | some a => some a
  | none => y

theorem opor_none {α : Type} (x : Option α) : opor x none = x := by
  cases x <;> rfl

theorem opor_assoc {α : Type} (x y z : Option α) :
    opor (opor x y) z = opor x (opor y z) := by
  cases x <;> rfl

theorem find?_append {α : Type} (f : α → Bool) (A B : List α) :
    (A ++ B).find? f = opor (A.find? f) (B.find? f) := by
  induction A with
  | nil => rfl
  | cons a t ih =>
    by_cases h : f a
    · simp [List.find?, h, opor]
    · simp only [List.cons_append, List.find?]
      rw [Bool.not_eq_true] at h
      rw [h]
      exact ih

theorem dict_get_set (d : StatusDict) (k : Int) (v : String) (i : Int) :
    dict_get (dict_set d k v) i = if k = i then some v else dict_get d i := by
  induction d with
  | nil =>
    by_cases h : k = i <;> simp [dict_set, dict_get, h]
  | cons hd t ih =>
    obtain ⟨k1, v1⟩ := hd
    by_cases hk : k1 = k
    · subst hk
      by_cases hi : k1 = i <;> simp [dict_set, dict_get, hi]
    · by_cases hi : k1 = i
      · subst hi
        have : ¬ k = k1 := fun h => hk h.symm
        simp [dict_set, dict_get, hk, this]
      · simp [dict_set, dict_get, hk, hi, ih]

theorem last_valid_action_cons (c : Int) (l : RawLine) (t : List RawLine) (i : Int) :
    last_valid_action c (l :: t) i =
      opor (last_valid_action c t i)
        ((valid_event_of c l).bind (fun p => if p.1 = i then some p.2 else none)) := by
  unfold last_valid_action
  rw [List.reverse_cons, List.filterMap_append, find?_append]
  cases hv : valid_event_of c l with
  | none =>
    simp [hv, opor_none]
  | some p =>
    simp only [hv, List.filterMap_cons, List.filterMap_nil, Option.some_bind]
    cases hf : (t.reverse.filterMap (valid_event_of c)).find? (fun q => q.1 = i) with
    | some q => simp [opor]
    | none =>
      by_cases hp : p.1 = i <;> simp [opor, List.find?, hp]

/-- The replay step rewritten through the spec-side event classifier. -/
theorem replay_step_parsed (c : Int) (d : StatusDict) (e : LogEntry) :
    replay_step c d (.parsed e) =
      .ok (match valid_event_of c (.parsed e) with
           | some p => dict_set d p.1 p.2
           | none => d) := by
  unfold replay_step valid_event_of
  by_cases h : e.chunk_id = .jint c
  · simp only [h, if_pos, ite_not, if_neg]
    cases e.index <;> cases e.action <;> simp
    split <;> simp
  · simp [h]

theorem replay_lines_get (c : Int) (lines : List RawLine) :
    ∀ (d0 d : StatusDict), replay_lines c d0 lines = .ok d →
      ∀ i, dict_get d i = opor (last_valid_action c lines i) (dict_get d0 i) := by
  induction lines with
  | nil =>
    intro d0 d h i
    simp only [replay_lines] at h
    cases h
    simp [last_valid_action, opor]
  | cons l t ih =>
    intro d0 d h i
    rw [last_valid_action_cons, opor_assoc]
    cases l with
    | malformed =>
      simp only [replay_lines, replay_step] at h
      simpa [valid_event_of, opor] using ih d0 d h i
    | nonobject =>
      simp [replay_lines, replay_step] at h
    | parsed e =>
      rw [show replay_lines c d0 (.parsed e :: t)
            = replay_lines c (match valid_event_of c (.parsed e) with
                              | some p => dict_set d0 p.1 p.2
                              | none => d0) t by
          simp only [replay_lines, replay_step_parsed]] at h
      cases hv : valid_event_of c (.parsed e) with
      | none =>
        rw [hv] at h
        simpa [opor] using ih d0 d h i
      | some p =>
        rw [hv] at h
        have := ih (dict_set d0 p.1 p.2) d h i
        rw [this, dict_get_set]
        by_cases hp : p.1 = i <;>
          cases hlt : last_valid_action c t i <;> simp [opor, hp]

/-- C3: replay of a chunk log is a pure function of the log (so replaying
the same log twice yields the same projection definitionally) and computes
last-write-wins: whenever `load_processed` succeeds, the projection at an
item index is the action of the latest valid event for that index in
append order; appending `(idx = 3, done)` then `(idx = 3, skip)` yields
`skip` at index 3. -/
theorem replay_last_write_wins :
    (∀ (c : Int) (file : Option (List RawLine)) (d : StatusDict) (i : Int),
        load_processed c file = .ok d →
        dict_get d i = last_valid_action c (file.getD []) i)
    ∧ load_processed 5 ((log_action ⟨5, 3, "img.png", 1, "skip"⟩ "t2"
          ((log_action ⟨5, 3, "img.png", 1, "done"⟩ "t1" none).1)).1)
        = .ok [(3, "skip")] := by
  constructor
  · intro c file d i h
    cases file with
    | none =>
      simp only [load_processed] at h
      cases h
      simp [dict_get, last_valid_action]
    | some lines =>
      have := replay_lines_get c lines [] d h i
      simpa [dict_get, opor_none, Option.getD] using this
  · rfl

/-- Witness for C3: the general last-write-wins theorem applied to the
concrete two-event log of the claim. -/
theorem replay_last_write_wins_witness :
    dict_get [(3, "skip")] 3 =
      last_valid_action 5
        [RawLine.parsed (entry_of_request ⟨5, 3, "img.png", 1, "done"⟩ "t1"),
         RawLine.parsed (entry_of_request ⟨5, 3, "img.png", 1, "skip"⟩ "t2")] 3 :=
  replay_last_write_wins.1 5
    (some [RawLine.parsed (entry_of_request ⟨5, 3, "img.png", 1, "done"⟩ "t1"),
           RawLine.parsed (entry_of_request ⟨5, 3, "img.png", 1, "skip"⟩ "t2")])
    [(3, "skip")] 3 rfl

/-- C4: `log_action` validates the action before any write: an action
outside `{done, skip}` yields a validation error and leaves the log file
untouched; a valid action appends exactly one event carrying the captured
timestamp to the end of the log (prior entries are preserved verbatim and
the event count grows by one). -/
theorem log_action_validates_and_appends :
    ∀ (req : LogRequest) (ts : String) (file : Option (List RawLine)),
      (req.action ≠ "done" ∧ req.action ≠ "skip" →
        log_action req ts file = (file, .errResp "action must be done or skip"))
      ∧ (req.action = "done" ∨ req.action = "skip" →
          log_action req ts file
            = (some (file.getD [] ++ [.parsed (entry_of_request req ts)]), .okResp)
          ∧ ((log_action req ts file).1.getD []).length = (file.getD []).length + 1) := by
  intro req ts file
  constructor
  · rintro ⟨h1, h2⟩
    simp [log_action, h1, h2]
  · intro h
    have e : log_action req ts file
        = (append_log file (entry_of_request req ts), .okResp) := by
      unfold log_action
      rw [if_neg (not_not_intro h)]
    exact ⟨by rw [e]; rfl, by rw [e]; simp [append_log]⟩

/-- Witness for C4: a "maybe" action is rejected with the file unchanged;
a "done" action appends the single event. -/
theorem log_action_validates_and_appends_witness :
    log_action ⟨1, 2, "i", 3, "maybe"⟩ "t" none
      = (none, .errResp "action must be done or skip")
    ∧ log_action ⟨1, 2, "i", 3, "done"⟩ "t" none
      = (some [.parsed (entry_of_request ⟨1, 2, "i", 3, "done"⟩ "t")], .okResp) :=
  ⟨(log_action_validates_and_appends ⟨1, 2, "i", 3, "maybe"⟩ "t" none).1
      ⟨by decide, by decide⟩,
   ((log_action_validates_and_appends ⟨1, 2, "i", 3, "done"⟩ "t" none).2 (Or.inl rfl)).1⟩

/-- C9 (counterexample): a log line that parses as JSON but is not an
object — e.g. the line "42" — makes the whole replay raise
(`obj.get` is evaluated outside the try/except), instead of the line being
skipped as the claim states for malformed lines. -/
theorem replay_nonobject_line_fails :
    load_processed 1 (some [RawLine.nonobject]) = .error () := rfl

/-- C9 (amended): replay returns an empty projection when the log file is
missing; lines that fail JSON parsing (which covers this journal's own
partially-written records, since every record line starts with a brace and
no strict prefix of it is valid JSON) are skipped; parsed events with a
mismatched chunk id, a non-integer item index, or an action outside
`{done, skip}` are ignored; but a line that parses to a non-object value
aborts the replay with an error rather than being skipped. -/
theorem replay_skips_invalid_lines :
    (∀ c : Int, load_processed c none = .ok [])
    ∧ (∀ (c : Int) (d : StatusDict), replay_step c d .malformed = .ok d)
    ∧ (∀ (c : Int) (d : StatusDict) (e : LogEntry),
        e.chunk_id ≠ .jint c → replay_step c d (.parsed e) = .ok d)
    ∧ (∀ (c : Int) (d : StatusDict) (e : LogEntry),
        (∀ n : Int, e.index ≠ .jint n) → replay_step c d (.parsed e) = .ok d)
    ∧ (∀ (c : Int) (d : StatusDict) (e : LogEntry),
        (∀ s : String, e.action = .jstr s → s ≠ "done" ∧ s ≠ "skip") →
        replay_step c d (.parsed e) = .ok d)
    ∧ (∀ (c : Int) (d : StatusDict), replay_step c d .nonobject = .error ()) := by
  refine ⟨fun c => rfl, fun c d => rfl, ?_, ?_, ?_, fun c d => rfl⟩
  · intro c d e h
    simp [replay_step, h]
  · intro c d e h
    by_cases hc : e.chunk_id = .jint c
    · simp only [replay_step, hc, ite_not, if_pos, if_neg, not_true_eq_false, ite_false]
      cases hi : e.index with
      | jint n => exact absurd hi (h n)
      | jnull => cases e.action <;> simp
      | jstr s => cases e.action <;> simp
      | jother => cases e.action <;> simp
    · simp [replay_step, hc]
  · intro c d e h
    by_cases hc : e.chunk_id = .jint c
    · simp only [replay_step, hc, ite_not, if_pos, if_neg, not_true_eq_false, ite_false]
      cases ha : e.action with
      | jstr s =>
        obtain ⟨h1, h2⟩ := h s ha
        cases e.index <;> simp [h1, h2]
      | jnull => cases e.index <;> simp
      | jint n => cases e.index <;> simp
      | jother => cases e.index <;> simp
    · simp [replay_step, hc]

/-- Witness for C9 (amended): a mismatched chunk id, a string item index,
and a "maybe" action are each ignored by the replay step. -/
theorem replay_skips_invalid_lines_witness :
    replay_step 1 [] (.parsed ⟨.jint 2, .jint 0, .jnull, .jnull, .jstr "done", .jnull⟩)
      = .ok []
    ∧ replay_step 1 [] (.parsed ⟨.jint 1, .jstr "x", .jnull, .jnull, .jstr "done", .jnull⟩)
      = .ok []
    ∧ replay_step 1 [] (.parsed ⟨.jint 1, .jint 0, .jnull, .jnull, .jstr "maybe", .jnull⟩)
      = .ok [] :=
  ⟨replay_skips_invalid_lines.2.2.1 1 []
      ⟨.jint 2, .jint 0, .jnull, .jnull, .jstr "done", .jnull⟩ (by decide),
   replay_skips_invalid_lines.2.2.2.1 1 []
      ⟨.jint 1, .jstr "x", .jnull, .jnull, .jstr "done", .jnull⟩
      (fun n h => JVal.noConfusion h),
   replay_skips_invalid_lines.2.2.2.2.1 1 []
      ⟨.jint 1, .jint 0, .jnull, .jnull, .jstr "maybe", .jnull⟩
      (by intro s hs; injection hs with h; subst h; exact ⟨by decide, by decide⟩)⟩

theorem fs_lookup_write (fs : List (String × NpyContent)) (x : String) (c : NpyContent)
    (y : String) :
    fs_lookup (fs_write fs x c) y = if x = y then some c else fs_lookup fs y := by
  induction fs with
  | nil =>
    by_cases h : x = y <;> simp [fs_write, fs_lookup, h]
  | cons p t ih =>
    obtain ⟨n, c1⟩ := p
    by_cases hn : n = x
    · subst hn
      by_cases hy : n = y <;> simp [fs_write, fs_lookup, hy]
    · by_cases hy : n = y
      · subst hy
        have hx : ¬ x = n := fun h => hn h.symm
        simp [fs_write, fs_lookup, hn, hx]
      · simp [fs_write, fs_lookup, hn, hy, ih]

theorem fs_lookup_remove_self (fs : List (String × NpyContent)) (x : String) :
    fs_lookup (fs_remove fs x) x = none := by
  induction fs with
  | nil => rfl
  | cons p t ih =>
    obtain ⟨n, c⟩ := p
    by_cases h : n = x
    · simpa [fs_remove, List.filter_cons, h] using ih
    · simpa [fs_remove, fs_lookup, List.filter_cons, h] using ih

theorem filter_ne_idem (l : List String) (x : String) :
    (l.filter (fun n => n ≠ x)).filter (fun n => n ≠ x) = l.filter (fun n => n ≠ x) := by
  induction l with
  | nil => rfl
  | cons a t ih =>
    by_cases h : a = x <;> simp [List.filter_cons, h, ih]

theorem load_meta_update (meta : MetaFile) (nm : String) :
    load_meta (update_metadata meta nm)
      = if nm ∈ load_meta meta then load_meta meta else load_meta meta ++ [nm] := rfl

theorem mem_load_meta_update (meta : MetaFile) (nm y : String)
    (h : y ∈ load_meta (update_metadata meta nm)) : y ∈ load_meta meta ∨ y = nm := by
  rw [load_meta_update] at h
  by_cases hm : nm ∈ load_meta meta
  · rw [if_pos hm] at h
    exact Or.inl h
  · rw [if_neg hm] at h
    rcases List.mem_append.mp h with h3 | h3
    · exact Or.inl h3
    · exact Or.inr (List.mem_singleton.mp h3)

theorem nodup_update (meta : MetaFile) (nm : String) (h : (load_meta meta).Nodup) :
    (load_meta (update_metadata meta nm)).Nodup := by
  rw [load_meta_update]
  by_cases hm : nm ∈ load_meta meta
  · rw [if_pos hm]
    exact h
  · rw [if_neg hm]
    simp [List.nodup_append, h, hm]

/-- C1 (counterexample): `save` performs no membership check on the drawn
identifier and never regenerates it: from a state whose index already
contains "abc.npy", the draw "abc" makes `save` return "abc.npy" — an id
already present in the index before the save — and silently overwrite that
artifact's backing file. -/
theorem save_collision_counterexample :
    (save ⟨[("abc.npy", .goodNpy [[1]])], .good ["abc.npy"]⟩ "abc" [[2]]).2 = "abc.npy"
    ∧ "abc.npy" ∈ load_meta (MetaFile.good ["abc.npy"])
    ∧ fs_lookup (save ⟨[("abc.npy", .goodNpy [[1]])], .good ["abc.npy"]⟩ "abc" [[2]]).1.files
        "abc.npy" = some (.goodNpy [[2]]) := by
  refine ⟨by decide, by decide, by decide⟩

/-- C1 (amended): the returned artifact id is the single random draw with
".npy" appended — no membership check or regeneration is performed, so a
colliding draw returns an id already present — but the index itself never
gains duplicates: `update_metadata` appends only names not already
present, so any sequence of saves preserves the no-duplicates invariant of
the index. -/
theorem save_no_duplicate_ids :
    (∀ (d : MaskDir) (rand : String) (m : Mask), (save d rand m).2 = rand ++ ".npy")
    ∧ (∀ (d : MaskDir) (ops : List (String × Mask)),
        (load_meta d.meta).Nodup → (load_meta (save_all d ops).meta).Nodup) := by
  constructor
  · intro d rand m
    rfl
  · intro d ops
    induction ops generalizing d with
    | nil =>
      intro h
      simpa [save_all] using h
    | cons p t ih =>
      intro h
      have h1 : (load_meta ((save d p.1 p.2).1).meta).Nodup := by
        have e : (save d p.1 p.2).1.meta = update_metadata d.meta (p.1 ++ ".npy") := rfl
        rw [e]
        exact nodup_update d.meta _ h
      simpa [save_all] using ih (save d p.1 p.2).1 h1

/-- Witness for C1 (amended): two saves with the same draw starting from an
empty directory leave a duplicate-free index. -/
theorem save_no_duplicate_ids_witness :
    (load_meta (save_all ⟨[], .absent⟩ [("a", [[1]]), ("a", [[2]])]).meta).Nodup :=
  save_no_duplicate_ids.2 ⟨[], .absent⟩ [("a", [[1]]), ("a", [[2]])]
    (by simp [load_meta])

/-- C2: `save` writes the mask file first and only then appends the id to
the index: if every indexed id is backed by a file before the save, this
still holds after the array write alone (the intermediate durable state —
whose only new unreferenced object is the orphaned file itself) and after
the subsequent index update, so no durable state has an index entry
without a backing file. -/
theorem save_writes_file_before_index :
    ∀ (d : MaskDir) (rand : String) (m : Mask),
      index_backed d →
      index_backed (save_write_file d (rand ++ ".npy") m)
      ∧ index_backed (save d rand m).1 := by
  intro d rand m h
  constructor
  · intro n hn
    have hn' : n ∈ load_meta d.meta := hn
    have e : (save_write_file d (rand ++ ".npy") m).files
        = fs_write d.files (rand ++ ".npy") (.goodNpy m) := rfl
    rw [e, fs_lookup_write]
    by_cases hx : (rand ++ ".npy") = n
    · simp [hx]
    · simpa [hx] using h n hn'
  · intro n hn
    have hn' : n ∈ load_meta (update_metadata d.meta (rand ++ ".npy")) := hn
    have e : (save d rand m).1.files
        = fs_write d.files (rand ++ ".npy") (.goodNpy m) := rfl
    rw [e, fs_lookup_write]
    by_cases hx : (rand ++ ".npy") = n
    · simp [hx]
    · rcases mem_load_meta_update d.meta _ n hn' with h1 | h1
      · simpa [hx] using h n h1
      · exact absurd h1.symm hx

/-- Witness for C2: the save steps applied to the empty directory. -/
theorem save_writes_file_before_index_witness :
    index_backed (save_write_file ⟨[], .absent⟩ ("a" ++ ".npy") [[1]])
    ∧ index_backed (save ⟨[], .absent⟩ "a" [[1]]).1 :=
  save_writes_file_before_index ⟨[], .absent⟩ "a" [[1]]
    (by intro n hn; simp [load_meta] at hn)

/-- C5: delete is idempotent: deleting the same id twice yields the exact
same state and response as deleting it once (so the second deletion leaves
the index unchanged), the response is always the silent success "deleted",
deleting an id absent from the index leaves the index contents unchanged,
and deleting an id with no backing file leaves the files unchanged. -/
theorem delete_idempotent :
    ∀ (d : MaskDir) (mask_name : String),
      delete (delete d mask_name).1 mask_name = delete d mask_name
      ∧ (delete d mask_name).2 = "deleted"
      ∧ (mask_name ∉ load_meta d.meta →
          load_meta (delete d mask_name).1.meta = load_meta d.meta)
      ∧ ((fs_lookup d.files mask_name).isSome = false →
          (delete d mask_name).1.files = d.files) := by
  intro d x
  have hfiles1 : fs_lookup
      (if (fs_lookup d.files x).isSome then fs_remove d.files x else d.files) x = none := by
    by_cases h : (fs_lookup d.files x).isSome
    · rw [if_pos h]
      exact fs_lookup_remove_self d.files x
    · rw [if_neg h]
      exact Option.not_isSome_iff_eq_none.mp h
  refine ⟨?_, rfl, ?_, ?_⟩
  · simp only [delete]
    rw [hfiles1]
    simp [save_meta, load_meta, filter_ne_idem]
  · intro h
    simp only [delete, save_meta, load_meta]
    exact List.filter_eq_self.mpr
      (fun a ha => decide_eq_true (fun hax => h (hax ▸ ha)))
  · intro h
    simp [delete, h]

/-- Witness for C5: deleting "x" from an empty directory twice. -/
theorem delete_idempotent_witness :
    delete (delete ⟨[], .good []⟩ "x").1 "x" = delete ⟨[], .good []⟩ "x"
    ∧ (delete ⟨[], .good []⟩ "x").2 = "deleted"
    ∧ load_meta (delete ⟨[], .good []⟩ "x").1.meta
        = load_meta (MaskDir.mk [] (.good [])).meta
    ∧ (delete ⟨[], .good []⟩ "x").1.files = (MaskDir.mk [] (.good [])).files :=
  ⟨(delete_idempotent ⟨[], .good []⟩ "x").1,
   (delete_idempotent ⟨[], .good []⟩ "x").2.1,
   (delete_idempotent ⟨[], .good []⟩ "x").2.2.1 (by decide),
   (delete_idempotent ⟨[], .good []⟩ "x").2.2.2 (by decide)⟩

/-- C10: a missing or unparsable metadata index loads as the empty list
rather than raising; consequently with a corrupt index every previously
saved mask is invisible to the listing and composite (the result is the
empty-thumbnail sentinel and no items), the next save rewrites the index
containing only the new id, and a delete rewrites it empty. -/
theorem load_meta_corrupt_resets :
    load_meta .corrupt = [] ∧ load_meta .absent = []
    ∧ (∀ (fs : List (String × NpyContent)) (base : Img),
        list_masks ⟨fs, .corrupt⟩ base = (none, []))
    ∧ (∀ nm : String, load_meta (update_metadata .corrupt nm) = [nm])
    ∧ (∀ (fs : List (String × NpyContent)) (nm : String),
        (delete ⟨fs, .corrupt⟩ nm).1.meta = save_meta []) := by
  exact ⟨rfl, rfl, fun fs base => rfl, fun nm => rfl, fun fs nm => rfl⟩

theorem list_fold_spec (d : MaskDir) (base : Img) (names : List String) :
    ∀ acc : List (String × Img) × List String,
      (names.foldl (list_step d base) acc).1
        = acc.1 ++ names.filterMap (fun n =>
            (np_load d n).map (fun m => (n, make_single_mask_thumbnail base m)))
      ∧ (names.foldl (list_step d base) acc).2
        = acc.2 ++ names.filter (fun n => (fs_lookup d.files n).isSome) := by
  induction names with
  | nil =>
    intro acc
    simp
  | cons n t ih =>
    intro acc
    cases hc : fs_lookup d.files n with
    | none =>
      have e : list_step d base acc n = acc := by simp [list_step, hc]
      have hnp : np_load d n = none := by simp [np_load, hc]
      constructor
      · rw [List.foldl_cons, e, (ih acc).1]
        simp [List.filterMap_cons, hnp]
      · rw [List.foldl_cons, e, (ih acc).2]
        simp [List.filter_cons, hc]
    | some c =>
      cases c with
      | corruptNpy =>
        have e : list_step d base acc n = (acc.1, acc.2 ++ [n]) := by simp [list_step, hc]
        have hnp : np_load d n = none := by simp [np_load, hc]
        constructor
        · rw [List.foldl_cons, e, (ih _).1]
          simp [List.filterMap_cons, hnp]
        · rw [List.foldl_cons, e, (ih _).2]
          simp [List.filter_cons, hc]
      | goodNpy m =>
        have e : list_step d base acc n
            = (acc.1 ++ [(n, make_single_mask_thumbnail base m)], acc.2 ++ [n]) := by
          simp [list_step, hc]
        have hnp : np_load d n = some m := by simp [np_load, hc]
        constructor
        · rw [List.foldl_cons, e, (ih _).1]
          simp [List.filterMap_cons, hnp]
        · rw [List.foldl_cons, e, (ih _).2]
          simp [List.filter_cons, hc]

theorem map_fst_filterMap (d : MaskDir) (base : Img) (names : List String) :
    (names.filterMap (fun n =>
        (np_load d n).map (fun m => (n, make_single_mask_thumbnail base m)))).map Prod.fst
      = names.filter (fun n => (np_load d n).isSome) := by
  induction names with
  | nil => rfl
  | cons n t ih =>
    cases hn : np_load d n with
    | none => simp [List.filterMap_cons, List.filter_cons, hn, ih]
    | some m => simp [List.filterMap_cons, List.filter_cons, hn, ih]

theorem filter_filterMap (d : MaskDir) (names : List String) :
    (names.filter (fun n => (fs_lookup d.files n).isSome)).filterMap (np_load d)
      = names.filterMap (np_load d) := by
  induction names with
  | nil => rfl
  | cons n t ih =>
    cases hc : fs_lookup d.files n with
    | none =>
      have hnp : np_load d n = none := by simp [np_load, hc]
      simp [List.filter_cons, List.filterMap_cons, hc, hnp, ih]
    | some c =>
      simp [List.filter_cons, List.filterMap_cons, hc, ih]

theorem compose_masks_eq_none (base : Img) (ms : List Mask) :
    compose_masks base ms = none ↔ ms = [] := by
  cases ms <;> simp [compose_masks]

/-- C6: the `/masks` listing silently omits every indexed id whose backing
file is missing or fails to load: the per-mask items are exactly the
loadable ids in index order, and the combined thumbnail is the composite of
exactly the masks that loaded (in index order); when zero masks load the
result is the empty-thumbnail sentinel (`none`, modelling the empty
string), which is distinct from every successful composite (`some`). -/
theorem list_masks_omits_failed_loads :
    ∀ (d : MaskDir) (base : Img),
      ((list_masks d base).2.map Prod.fst
        = (load_meta d.meta).filter (fun n => (np_load d n).isSome))
      ∧ ((list_masks d base).1
        = compose_masks base ((load_meta d.meta).filterMap (np_load d)))
      ∧ ((list_masks d base).1 = none
          ↔ (load_meta d.meta).filterMap (np_load d) = []) := by
  intro d base
  have hf := list_fold_spec d base (load_meta d.meta) ([], [])
  have hi : ((load_meta d.meta).foldl (list_step d base) ([], [])).1
      = (load_meta d.meta).filterMap (fun n =>
          (np_load d n).map (fun m => (n, make_single_mask_thumbnail base m))) := by
    simpa using hf.1
  have hp : ((load_meta d.meta).foldl (list_step d base) ([], [])).2
      = (load_meta d.meta).filter (fun n => (fs_lookup d.files n).isSome) := by
    simpa using hf.2
  have e1 : (list_masks d base).1
      = (if ((load_meta d.meta).foldl (list_step d base) ([], [])).2.isEmpty then none
         else make_combined_thumbnail d base
           ((load_meta d.meta).foldl (list_step d base) ([], [])).2) := rfl
  have e2 : (list_masks d base).2
      = ((load_meta d.meta).foldl (list_step d base) ([], [])).1 := rfl
  have hcomb : (list_masks d base).1
      = compose_masks base ((load_meta d.meta).filterMap (np_load d)) := by
    rw [e1, hp]
    by_cases he : ((load_meta d.meta).filter
        (fun n => (fs_lookup d.files n).isSome)).isEmpty
    · rw [if_pos he]
      rw [List.isEmpty_iff] at he
      have hz : (load_meta d.meta).filterMap (np_load d) = [] := by
        rw [← filter_filterMap d, he]
        rfl
      rw [hz]
      rfl
    · rw [if_neg he, make_combined_thumbnail, filter_filterMap]
  refine ⟨?_, hcomb, ?_⟩
  · rw [e2, hi]
    exact map_fst_filterMap d base (load_meta d.meta)
  · rw [hcomb]
    exact compose_masks_eq_none base _

/-- C7 (counterexample): with two saved masks both covering the single
pixel of a 1x1 black base image, the combined overlay's color at that
pixel is the blend `(4312/51, 6248/51, 6248/51)`, which is not the color
`(51, 255, 255)` assigned to the second (later) mask B: the layers are
composited at the fixed opacity 110/255, never opaquely, so the result
does not match B's assigned color. -/
theorem combined_overlay_not_last_color :
    make_combined_thumbnail ⟨[("a.npy", .goodNpy [[255]]), ("b.npy", .goodNpy [[255]])],
        .good ["a.npy", "b.npy"]⟩ [[⟨0, 0, 0, 255⟩]] ["a.npy", "b.npy"]
      = some [[⟨4312 / 51, 6248 / 51, 6248 / 51, 255⟩]]
    ∧ distinct_colors 2 = [(255, 51, 51), (51, 255, 255)]
    ∧ ((4312 : ℚ) / 51 ≠ 51 ∧ (6248 : ℚ) / 51 ≠ 255) := by
  refine ⟨?_, ?_, by norm_num, by norm_num⟩
  · have hm : List.filterMap
        (np_load ⟨[("a.npy", .goodNpy [[255]]), ("b.npy", .goodNpy [[255]])],
          .good ["a.npy", "b.npy"]⟩) ["a.npy", "b.npy"]
        = ([[[255]], [[255]]] : List Mask) := rfl
    rw [make_combined_thumbnail, hm, compose_masks]
    have hc : distinct_colors ([[[255]], [[255]]] : List Mask).length
        = [(255, 51, 51), (51, 255, 255)] := by
      norm_num [distinct_colors, hsv_to_rgb, int_trunc, rgb255, List.range_succ]
      decide
    rw [hc]
    norm_num [transparent_like, alpha_composite, color_layer, over_pixel, List.zipWith]
  · norm_num [distinct_colors, hsv_to_rgb, int_trunc, rgb255, List.range_succ]
    decide

/-- C7 (amended): the overlay is composited in collection order — the
first mask's layer over the transparent overlay, then the second mask's
layer on top, via the standard "over" operator at the fixed layer opacity
110/255 — so at a pixel covered by both masks the overlay color is the
blend `(51 * B + 29 * A) / 80` per channel: the later mask B dominates
(the result is strictly closer to B's color than to A's) but, the layers
never being opaque, it does not equal B's assigned color whenever the two
colors differ. -/
theorem combined_overlay_blend_dominated_by_last :
    ∀ (a b : ℕ × ℕ × ℕ) (vA vB : ℕ), 0 < vA → 0 < vB →
      alpha_composite (alpha_composite [[(⟨0, 0, 0, 0⟩ : Pixel)]] (color_layer a 110 [[vA]]))
          (color_layer b 110 [[vB]])
        = [[⟨(51 * (b.1 : ℚ) + 29 * (a.1 : ℚ)) / 80,
             (51 * (b.2.1 : ℚ) + 29 * (a.2.1 : ℚ)) / 80,
             (51 * (b.2.2 : ℚ) + 29 * (a.2.2 : ℚ)) / 80, 8800 / 51⟩]]
      ∧ (a.1 ≠ b.1 →
          (51 * (b.1 : ℚ) + 29 * (a.1 : ℚ)) / 80 ≠ (b.1 : ℚ)
          ∧ |(51 * (b.1 : ℚ) + 29 * (a.1 : ℚ)) / 80 - (b.1 : ℚ)|
              < |(51 * (b.1 : ℚ) + 29 * (a.1 : ℚ)) / 80 - (a.1 : ℚ)|) := by
  intro a b vA vB hA hB
  constructor
  · simp only [alpha_composite, color_layer, List.map, List.zipWith, over_pixel,
      if_pos hA, if_pos hB]
    norm_num [Pixel.mk.injEq]
    refine ⟨by ring, by ring, by ring⟩
  · intro hab
    have hab' : (a.1 : ℚ) ≠ (b.1 : ℚ) := by exact_mod_cast hab
    constructor
    · intro h
      apply hab'
      field_simp at h
      linarith
    · have h0 : (0 : ℚ) < |(a.1 : ℚ) - (b.1 : ℚ)| := abs_pos.mpr (sub_ne_zero.mpr hab')
      have e1 : (51 * (b.1 : ℚ) + 29 * (a.1 : ℚ)) / 80 - (b.1 : ℚ)
          = 29 * ((a.1 : ℚ) - (b.1 : ℚ)) / 80 := by ring
      have e2 : (51 * (b.1 : ℚ) + 29 * (a.1 : ℚ)) / 80 - (a.1 : ℚ)
          = -(51 * ((a.1 : ℚ) - (b.1 : ℚ))) / 80 := by ring
      rw [e1, e2, abs_div, abs_div, abs_neg, abs_mul, abs_mul]
      have h29 : |(29 : ℚ)| = 29 := by norm_num
      have h51 : |(51 : ℚ)| = 51 := by norm_num
      have h80 : |(80 : ℚ)| = 80 := by norm_num
      rw [h29, h51, h80]
      have hlt : 29 * |(a.1 : ℚ) - (b.1 : ℚ)| < 51 * |(a.1 : ℚ) - (b.1 : ℚ)| := by
        nlinarith
      linarith

/-- Witness for C7 (amended): the two-layer blend at the colors assigned
by `distinct_colors 2`, with both mask pixels set. -/
theorem combined_overlay_blend_dominated_by_last_witness :
    alpha_composite
        (alpha_composite [[(⟨0, 0, 0, 0⟩ : Pixel)]] (color_layer (255, 51, 51) 110 [[255]]))
        (color_layer (51, 255, 255) 110 [[255]])
      = [[⟨2499 / 20, 3621 / 20, 3621 / 20, 8800 / 51⟩]]
    ∧ (51 * (((51 : ℕ) : ℚ)) + 29 * (((255 : ℕ) : ℚ))) / 80 ≠ (((51 : ℕ) : ℚ)) := by
  have h := combined_overlay_blend_dominated_by_last (255, 51, 51) (51, 255, 255)
    255 255 (by norm_num) (by norm_num)
  refine ⟨?_, (h.2 (by norm_num)).1⟩
  rw [h.1]
  norm_num

/-- C8: the color assigner is a pure function returning exactly `n` colors
obtained by `n` equal divisions of the hue circle at saturation 0.8 and
value 1.0; for `n = 0` it returns the empty sequence, and for `n = 3` the
hues are 0, 1/3 and 2/3 of the circle (0, 120 and 240 degrees), giving
the concrete triples (255, 51, 51), (51, 255, 51) and (51, 51, 255). -/
theorem distinct_colors_spec :
    (∀ n : ℕ, (distinct_colors n).length = n)
    ∧ (∀ n : ℕ, distinct_colors n
        = (List.range n).map (fun i : ℕ => rgb255 (hsv_to_rgb ((i : ℚ) / (n : ℚ)) (4 / 5) 1)))
    ∧ distinct_colors 0 = []
    ∧ distinct_colors 3
        = [rgb255 (hsv_to_rgb 0 (4 / 5) 1), rgb255 (hsv_to_rgb (1 / 3) (4 / 5) 1),
           rgb255 (hsv_to_rgb (2 / 3) (4 / 5) 1)]
    ∧ distinct_colors 3 = [(255, 51, 51), (51, 255, 51), (51, 51, 255)] := by
  refine ⟨?_, ?_, rfl, ?_, ?_⟩
  · intro n
    cases n with
    | zero => rfl
    | succ k =>
      rw [distinct_colors, if_neg (Nat.succ_ne_zero k), List.length_map, List.length_range]
  · intro n
    by_cases hn : n = 0
    · subst hn
      rfl
    · simp [distinct_colors, hn]
  · norm_num [distinct_colors, List.range_succ]
  · norm_num [distinct_colors, hsv_to_rgb, int_trunc, rgb255, List.range_succ]
    decide

end Sam2
